import Mathlib

/-!
Verification development for the dacli agent core: a shallow embedding of
the result/status model (tools/Base.py), the memory/state store
(core/memory.py) and the orchestration loop (core/agent.py), with theorems
settling the specification claims about them.

Modelling conventions:
- Python dicts that the code uses as ordered key/value maps are embedded as
  association lists (`List (String × _)`) with insertion-order-preserving
  overwrite, matching CPython dict semantics.
- Machine floats that no claim computes with (durations in milliseconds)
  are embedded as `Int`.
- `datetime.now().isoformat()` timestamps are threaded explicitly: every
  mutating operation takes the current time as a `String` argument.
- A raised Python exception is an `Except.error` carrying the exception
  text; code that cannot raise returns plainly.
- Opaque JSON-serializable payloads that the store never inspects
  (inferred schemas, message metadata values) are embedded as strings.
-/

/-- Model of the Python values that flow through `ToolResult.data` and the
tool-execution log: `None`, strings, lists and string-valued dicts. -/
inductive PyData where
  | pnone : PyData
  | pstr (s : String) : PyData
  | plist (xs : List PyData) : PyData
  | pdict (fs : List (String × String)) : PyData
deriving Repr

/-- Python `repr` of one dict entry. -/
def pyReprField (f : String × String) : String :=
  "'" ++ f.1 ++ "': '" ++ f.2 ++ "'"

mutual

/-- Python `repr()` on the modelled values (string escaping elided). -/
def pyRepr : PyData → String
  | .pnone => "None"
  | .pstr s => "'" ++ s ++ "'"
  | .plist xs => "[" ++ String.intercalate ", " (pyReprList xs) ++ "]"
  | .pdict fs => "\x7b" ++ String.intercalate ", " (fs.map pyReprField) ++ "\x7d"

/-- `repr` of every element of a list, in order. -/
def pyReprList : List PyData → List String
  | [] => []
  | x :: xs => pyRepr x :: pyReprList xs

end

/-- Python `str()` on the modelled values: identity on strings, `repr`
elsewhere. -/
def pyStrOf : PyData → String
  | .pstr s => s
  | d => pyRepr d

/-- Python truthiness of the modelled values. -/
def pyTruthy : PyData → Bool
  | .pnone => false
  | .pstr s => s ≠ ""
  | .plist xs => !xs.isEmpty
  | .pdict fs => !fs.isEmpty

/-- Whether the value is a Python `dict` (`isinstance(x, dict)`). -/
def pyIsDict : PyData → Bool
  | .pdict _ => true
  | _ => false

/-- `str()` of an optional value interpolated into an f-string:
`None` renders as `"None"`. -/
def pyStrOpt : Option String → String
  | none => "None"
  | some s => s

/-- `ToolStatus` from tools/Base.py. -/
inductive ToolStatus where
  | success : ToolStatus
  | error : ToolStatus
  | timeout : ToolStatus
  | cancelled : ToolStatus
  | pending_approval : ToolStatus
deriving Repr, DecidableEq

/-- `ToolResult` from tools/Base.py. The `timestamp` and `metadata` fields,
which no modelled operation consults, are elided. -/
structure ToolResult where
  tool_name : String
  status : ToolStatus
  data : PyData := .pnone
  error : Option String := none
  execution_time_ms : Int := 0
deriving Repr

/-- `ToolResult.success`: true iff the status is SUCCESS. -/
def ToolResult.isSuccess (r : ToolResult) : Bool :=
  r.status = ToolStatus.success

/-- `ToolResult._format_data` from tools/Base.py. For a non-empty list
whose first element is a dict it renders up to 20 ` Row <i>: <row>` lines;
when the list has more than 20 elements the source then evaluates
`len(self.data - 20)`, which subtracts an int from a list and raises
`TypeError`. Every other shape falls through to `str(self.data)`. -/
def ToolResult.formatData (r : ToolResult) : Except String String :=
  match r.data with
  | .plist (x :: xs) =>
      let rows := x :: xs
      let display := rows.take 20
      if pyIsDict x then
        let lines := display.enum.map
          (fun p => " Row " ++ toString (p.1 + 1) ++ ": " ++ pyStrOf p.2)
        if rows.length > 20 then
          Except.error "TypeError: unsupported operand type(s) for -: 'list' and 'int'"
        else
          Except.ok (String.intercalate "\n" lines)
      else
        Except.ok (pyStrOf r.data)
  | d => Except.ok (pyStrOf d)

/-- `ToolResult.to_message` from tools/Base.py: the deterministic rendering
of a result for re-injection into the model context. Propagates the
`TypeError` that `_format_data` can raise. -/
def ToolResult.toMessage (r : ToolResult) : Except String String :=
  if r.isSuccess then
    match r.data with
    | .plist xs =>
        if xs.length = 0 then
          Except.ok ("[" ++ r.tool_name ++ "] Executed successfully. No results returned")
        else do
          let fd ← r.formatData
          Except.ok ("[" ++ r.tool_name ++ "] Executed successfully. Returned "
            ++ toString xs.length ++ " rows:\n" ++ fd)
    | d =>
        if pyTruthy d then do
          let fd ← r.formatData
          Except.ok ("[" ++ r.tool_name ++ "] Executed successfully:\n" ++ fd)
        else
          Except.ok ("[" ++ r.tool_name ++ "] Executed successfully.")
  else
    Except.ok ("[" ++ r.tool_name ++ "] failed with error: " ++ pyStrOpt r.error)

/-- Whether an `Except` value is a normal return. -/
def exceptIsOk {ε α : Type} : Except ε α → Bool
  | .ok _ => true
  | .error _ => false

/-! ## Association lists: the embedding of Python dicts used as maps -/

/-- Lookup in an insertion-ordered map (`d[k]` / `d.get(k)`). -/
def alistGet {α : Type} : List (String × α) → String → Option α
  | [], _ => none
  | (k, v) :: rest, key => if k = key then some v else alistGet rest key

/-- Overwrite-or-append assignment (`d[k] = v`), preserving insertion
order as CPython dicts do. -/
def alistSet {α : Type} : List (String × α) → String → α → List (String × α)
  | [], key, v => [(key, v)]
  | (k, w) :: rest, key, v =>
      if k = key then (k, v) :: rest else (k, w) :: alistSet rest key v

theorem alistGet_alistSet_self {α : Type} (l : List (String × α)) (k : String) (v : α) :
    alistGet (alistSet l k v) k = some v := by
  induction l with
  | nil => simp [alistSet, alistGet]
  | cons hd tl ih =>
      by_cases h : hd.1 = k
      · simp [alistSet, alistGet, h]
      · simp [alistSet, alistGet, h, ih]

/-! ## core/memory.py: the memory/state store -/

/-- `PhaseStatus` from core/memory.py. -/
inductive PhaseStatus where
  | not_started : PhaseStatus
  | in_progress : PhaseStatus
  | completed : PhaseStatus
  | failed : PhaseStatus
  | paused : PhaseStatus
deriving Repr, DecidableEq

/-- The `.value` string of each `PhaseStatus` member. -/
def PhaseStatus.value : PhaseStatus → String
  | .not_started => "not_started"
  | .in_progress => "in_progress"
  | .completed => "completed"
  | .failed => "failed"
  | .paused => "paused"

/-- `PhaseProgress` from core/memory.py (the store keeps these as plain
dicts produced by `asdict`; the typed record is equivalent). -/
structure PhaseProgress where
  phase_name : String
  status : String := PhaseStatus.not_started.value
  total_steps : Int := 0
  current_step : Int := 0
  steps_completed : List String := []
  errors : List String := []
  started_at : Option String := none
  completed_at : Option String := none
deriving Repr, DecidableEq

/-- `Message` from core/memory.py. Metadata values are opaque strings. -/
structure Message where
  role : String
  content : String
  timestamp : String
  metadata : List (String × String) := []
deriving Repr, DecidableEq

/-- `ToolExecution` from core/memory.py. Input-parameter values are the
opaque argument strings; the result payload is a `PyData` value. -/
structure ToolExecution where
  tool_name : String
  timestamp : String
  status : String
  input_params : List (String × String)
  result : Option PyData := none
  error : Option String := none
  execution_time_ms : Int := 0
deriving Repr

/-- `AgentState` from core/memory.py. `phases` maps phase keys to
`asdict(PhaseProgress)` dicts; `inferred_schemas` values are opaque. -/
structure AgentState where
  session_id : String
  created_at : String
  updated_at : String
  current_phase : String := "Initialization"
  phases : List (String × PhaseProgress) := []
  discovered_files : List (String × List String) := []
  inferred_schemas : List (String × String) := []
  created_tables : List String := []
  loaded_tables : List (String × Int) := []
  infrastructure_ready : Bool := false
  schemas_created : List String := []
  file_formats_created : List String := []
  last_error : Option String := none
  errors_count : Int := 0
  dbt_sources_registered : List String := []
  dbt_models_created : List String := []
deriving Repr

/-- The JSON-shaped content `_save_state` writes to a session's state
file: the `asdict` of the state with the tool-execution log added under
the `tool_history` key (which `load_session` pops back out). All stored
values are JSON-representable, so dump/load round-trips them. -/
structure StateFile where
  state : AgentState
  tool_history : List ToolExecution
deriving Repr

/-- `AgentMemory` from core/memory.py, together with the files it writes:
`stateFiles`/`historyFiles` map file names (derived deterministically from
session ids) to the deserialized content of the last full overwrite. The
lazily-created `_session_id` and `_state` are modelled as already
materialized. -/
structure AgentMemory where
  memory_window : Nat
  session_id : String
  messages : List Message := []
  tool_history : List ToolExecution := []
  state : AgentState
  stateFiles : List (String × StateFile) := []
  historyFiles : List (String × List Message) := []
deriving Repr

/-- `_get_state_file` from core/memory.py. -/
def stateFileName (sid : String) : String := "state_" ++ sid ++ ".json"

/-- `_get_history_file` from core/memory.py. -/
def historyFileName (sid : String) : String := "history_" ++ sid ++ ".json"

/-- `AgentMemory._save_state`: full overwrite of the session's state file
with the state dict plus the tool history. -/
def AgentMemory.saveState (m : AgentMemory) : AgentMemory :=
  { m with stateFiles :=
      alistSet m.stateFiles (stateFileName m.session_id) ⟨m.state, m.tool_history⟩ }

/-- `AgentMemory._save_history`: full overwrite of the session's history
file with the message list. -/
def AgentMemory.saveHistory (m : AgentMemory) : AgentMemory :=
  { m with historyFiles :=
      alistSet m.historyFiles (historyFileName m.session_id) m.messages }

/-- `AgentMemory.add_message`: append to the history and save it. -/
def AgentMemory.addMessage (m : AgentMemory) (now role content : String)
    (metadata : List (String × String)) : AgentMemory :=
  AgentMemory.saveHistory
    { m with messages := m.messages ++ [⟨role, content, now, metadata⟩] }

/-- `AgentMemory.add_user_message`. -/
def AgentMemory.addUserMessage (m : AgentMemory) (now content : String) : AgentMemory :=
  m.addMessage now "user" content []

/-- `AgentMemory.add_assistant_message`. -/
def AgentMemory.addAssistantMessage (m : AgentMemory) (now content : String) : AgentMemory :=
  m.addMessage now "assistant" content []

/-- Python slicing `l[-w:]` for a non-negative window `w` (the source's
`memory_window` is an int the configuration validates to be ≥ 1; note
`l[-0:]` would be the whole list). -/
def pySliceLast {α : Type} (l : List α) (w : Nat) : List α :=
  if w = 0 then l else l.drop (l.length - w)

/-- `AgentMemory.get_context_messages`: the windowed suffix of the
history, projected to `{"role": ..., "content": ...}` dicts. -/
def AgentMemory.getContextMessages (m : AgentMemory) : List (String × String) :=
  (pySliceLast m.messages m.memory_window).map (fun msg => (msg.role, msg.content))

/-- `AgentMemory.log_tool_execution`: append one `ToolExecution` record
and snapshot-write the state file. -/
def AgentMemory.logToolExecution (m : AgentMemory) (now tool_name : String)
    (input_params : List (String × String)) (result : Option PyData)
    (error : Option String) (execution_time_ms : Int) : AgentMemory :=
  let record : ToolExecution :=
    { tool_name := tool_name, timestamp := now,
      status := match error with | none => "success" | some _ => "error",
      input_params := input_params, result := result, error := error,
      execution_time_ms := execution_time_ms }
  AgentMemory.saveState { m with tool_history := m.tool_history ++ [record] }

/-- Python truthiness of an optional string (`not phase.get("started_at")`
is true for both `None` and `""`). -/
def pyFalsyOptStr : Option String → Bool
  | none => true
  | some s => s = ""

/-- The entry `update_phase` creates on first reference:
`asdict(PhaseProgress(phase_name=phase_key))`. -/
def defaultPhase (phase_key : String) : PhaseProgress :=
  { phase_name := phase_key }

/-- The `if status:` block of `update_phase`: record the new status value;
entering IN_PROGRESS stamps `started_at` only when it is currently falsy,
and (as an `elif`) entering COMPLETED always stamps `completed_at`. -/
def phaseApplyStatus (now : String) (p : PhaseProgress) : Option PhaseStatus → PhaseProgress
  | none => p
  | some s =>
      let ps := { p with status := s.value }
      if s = PhaseStatus.in_progress then
        if pyFalsyOptStr p.started_at then { ps with started_at := some now } else ps
      else if s = PhaseStatus.completed then
        { ps with completed_at := some now }
      else ps

/-- The `if current_step is not None:` block of `update_phase`. -/
def phaseApplyCurrentStep (p : PhaseProgress) : Option Int → PhaseProgress
  | none => p
  | some cs => { p with current_step := cs }

/-- The `if step_completed:` block of `update_phase`: a truthy step
description is appended once (deduplicated by exact string match). -/
def phaseApplyStepCompleted (p : PhaseProgress) : Option String → PhaseProgress
  | none => p
  | some sc =>
      if sc = "" then p
      else if sc ∈ p.steps_completed then p
      else { p with steps_completed := p.steps_completed ++ [sc] }

/-- The phase part of the `if error:` block of `update_phase`. -/
def phaseApplyError (p : PhaseProgress) : Option String → PhaseProgress
  | none => p
  | some e => if e = "" then p else { p with errors := p.errors ++ [e] }

/-- `AgentMemory.update_phase` from core/memory.py: ensure the entry
exists, apply the status / current-step / step-completed / error blocks in
the source's order, mirror the error into the state's error tracking,
stamp `updated_at`, and snapshot-write. -/
def AgentMemory.updatePhase (m : AgentMemory) (now phase_key : String)
    (status : Option PhaseStatus) (current_step : Option Int)
    (step_completed : Option String) (error : Option String) : AgentMemory :=
  let phases0 :=
    match alistGet m.state.phases phase_key with
    | some _ => m.state.phases
    | none => alistSet m.state.phases phase_key (defaultPhase phase_key)
  let p0 := (alistGet phases0 phase_key).getD (defaultPhase phase_key)
  let p4 :=
    phaseApplyError
      (phaseApplyStepCompleted
        (phaseApplyCurrentStep (phaseApplyStatus now p0 status) current_step)
        step_completed)
      error
  let state1 :=
    match error with
    | none => m.state
    | some e =>
        if e = "" then m.state
        else { m.state with last_error := some e, errors_count := m.state.errors_count + 1 }
  AgentMemory.saveState
    { m with state :=
        { state1 with phases := alistSet phases0 phase_key p4, updated_at := now } }

/-- `AgentMemory.add_created_table`: append once, then snapshot-write. -/
def AgentMemory.addCreatedTable (m : AgentMemory) (table_name : String) : AgentMemory :=
  let st :=
    if table_name ∈ m.state.created_tables then m.state
    else { m.state with created_tables := m.state.created_tables ++ [table_name] }
  AgentMemory.saveState { m with state := st }

/-- `AgentMemory.add_created_schema`: append once, then snapshot-write. -/
def AgentMemory.addCreatedSchema (m : AgentMemory) (schema_name : String) : AgentMemory :=
  let st :=
    if schema_name ∈ m.state.schemas_created then m.state
    else { m.state with schemas_created := m.state.schemas_created ++ [schema_name] }
  AgentMemory.saveState { m with state := st }

/-- `AgentMemory.add_created_file_format`: append once, then
snapshot-write. -/
def AgentMemory.addCreatedFileFormat (m : AgentMemory) (file_format : String) : AgentMemory :=
  let st :=
    if file_format ∈ m.state.file_formats_created then m.state
    else { m.state with file_formats_created := m.state.file_formats_created ++ [file_format] }
  AgentMemory.saveState { m with state := st }

/-- Python `dict` has no `append` attribute: the method lookup that
`add_loaded_table` performs on `self.state.loaded_tables` (a
`Dict[str, int]`) has no target. -/
def dictAppendMethod : Option (List (String × Int) → String → List (String × Int)) :=
  none

/-- `AgentMemory.add_loaded_table` from core/memory.py: the source calls
`self.state.loaded_tables.append(table_name)` on a dict-typed field, so
attribute lookup raises `AttributeError` before `_save_state` runs; the
save on the following line is reached only if the lookup had succeeded. -/
def AgentMemory.addLoadedTable (m : AgentMemory) (table_name : String) :
    Except String AgentMemory :=
  match dictAppendMethod with
  | none => Except.error "AttributeError: 'dict' object has no attribute 'append'"
  | some app =>
      Except.ok (AgentMemory.saveState
        { m with state :=
            { m.state with loaded_tables := app m.state.loaded_tables table_name } })

/-- `AgentMemory.load_session` from core/memory.py: fail closed when the
state file is absent; otherwise replace the tool history, the state and
the session id from the state file, and replace the messages from the
history file only when that file exists. Returns the success flag and the
resulting store. -/
def AgentMemory.loadSession (m : AgentMemory) (sid : String) : Bool × AgentMemory :=
  match alistGet m.stateFiles (stateFileName sid) with
  | none => (false, m)
  | some file =>
      let msgs :=
        match alistGet m.historyFiles (historyFileName sid) with
        | some h => h
        | none => m.messages
      (true,
        { m with tool_history := file.tool_history, state := file.state,
                 session_id := sid, messages := msgs })

/-! ## core/agent.py: the orchestration loop -/

/-- A structured tool-call request from the adapter:
`{id, name, arguments}`, with the argument values kept as opaque strings. -/
structure ToolCall where
  id : String
  name : String
  arguments : List (String × String) := []
deriving Repr, DecidableEq

/-- `arguments.get(key, default)`. -/
def argGet (args : List (String × String)) (key default : String) : String :=
  (alistGet args key).getD default

/-- Remove a key from an argument dict (`arguments.pop`). -/
def alistErase {α : Type} : List (String × α) → String → List (String × α)
  | [], _ => []
  | (k, v) :: rest, key =>
      if k = key then rest else (k, v) :: alistErase rest key

/-- The in-place `limit` → `per_page` rename `_execute_tool` performs on
the argument dict of `list_github_workflow_runs` before dispatching (the
mutation is visible to the subsequent logging of `input_params`). -/
def renameLimitArg (args : List (String × String)) : List (String × String) :=
  match alistGet args "limit" with
  | none => args
  | some v => alistSet (alistErase args "limit") "per_page" v

/-- `json.dumps` of a string-valued argument dict, as serialized into the
echoed assistant turn. -/
def jsonDumpArgs (args : List (String × String)) : String :=
  "\x7b" ++ String.intercalate ", "
    (args.map (fun f => "\"" ++ f.1 ++ "\": \"" ++ f.2 ++ "\"")) ++ "\x7d"

/-- The echo of one tool call inside the synthetic assistant turn:
`{id, type: function, function: {name, arguments: json.dumps(...)}}`. -/
structure EchoCall where
  id : String
  name : String
  argumentsJson : String
deriving Repr, DecidableEq

/-- One entry of the per-invocation working context (`messages` in
`process_message`): a plain role/content dict, the synthetic assistant
turn carrying tool-call echoes, or a tool-result turn keyed to a
tool-call id. -/
inductive CtxMsg where
  | plain (role content : String) : CtxMsg
  | assistantCalls (content : Option String) (calls : List EchoCall) : CtxMsg
  | toolMsg (tool_call_id content : String) : CtxMsg
deriving Repr, DecidableEq

/-- `AgentResponse` from core/agent.py. -/
structure AgentResponse where
  content : String
  tool_calls : List ToolCall
  thinking : Option String := none
  needs_user_input : Bool := false
  error : Option String := none
  iteration : Nat := 0
deriving Repr, DecidableEq

/-- The mutable state threaded through one `process_message` invocation:
the memory store, the working context, a cursor into the time source, and
a ghost counter of adapter (`llm.generate`) invocations used to state
"no further model call happens". -/
structure LoopState where
  mem : AgentMemory
  messages : List CtxMsg
  tick : Nat := 0
  gens : Nat := 0
deriving Repr

/-- The environment of one invocation: the provider adapter and the
external tool collaborators behind the dispatch table (the
snowflake / github / pinecone `execute`/`validate` calls, abstracted at
the request/response boundary the spec draws), the optional user-input
callback, and the time source. An `Except.error` from `generate` or
`dispatch` is a raised Python exception. -/
structure Env where
  generate : Nat → List CtxMsg → Except String (String × List ToolCall)
  dispatch : String → List (String × String) → Except String ToolResult
  userInputCb : Option (String → String) := none
  time : Nat → String := fun _ => ""
  elapsedMs : Nat → Int := fun _ => 0

/-- Python substring test `sub in s` for a non-empty needle. -/
def pyContains (s sub : String) : Bool :=
  (s.splitOn sub).length > 1

/-- The success-dependent memory update of the `execute_snowflake_query`
branch of `_execute_tool`: uppercase the query and record a created
schema, file format or table parsed out of it. -/
def snowflakeQueryMemUpdate (m : AgentMemory) (rawQuery : String) : AgentMemory :=
  let query := rawQuery.toUpper
  if pyContains query "CREATE SCHEMA" then
    m.addCreatedSchema (((query.splitOn ".").getLastD "").replace ";" "").trim
  else if pyContains query "CREATE" && pyContains query "FILE FORMAT" then
    m.addCreatedFileFormat ((((query.splitOn "FILE FORMAT").getD 1 "").splitOn "(").headD "").trim
  else if pyContains query "CREATE" && pyContains query "TABLE" then
    m.addCreatedTable ((((query.splitOn "TABLE").getD 1 "").splitOn "(").headD "").trim
  else m

/-- The tool names `_execute_tool` dispatches to external collaborators. -/
def externalToolNames : List String :=
  ["execute_snowflake_query", "validate_snowflake_connection",
   "search_snowflake_docs", "list_github_directory", "read_github_file",
   "push_github_file", "trigger_github_workflow", "list_github_workflow_runs",
   "get_github_workflow_run", "get_github_workflow_run_jobs"]

/-- The effective argument dict of a call as seen by the dispatch and by
the subsequent log (`list_github_workflow_runs` mutates it in place). -/
def effArgs (c : ToolCall) : List (String × String) :=
  if c.name = "list_github_workflow_runs" then renameLimitArg c.arguments
  else c.arguments

/-- The dispatch chain of `DACLI._execute_tool` (the body of its `try`):
external collaborators, the two always-present tools, or the synthesized
"Unknown tool" ERROR. `Except.error` is an exception escaping the branch
(in which case no memory mutation has happened, since the branches mutate
memory only after their awaited call returns). -/
def execAttempt (env : Env) (st : LoopState) (c : ToolCall) :
    Except String (ToolResult × AgentMemory) :=
  if c.name = "execute_snowflake_query" then
    match env.dispatch c.name [("query", argGet c.arguments "query" "")] with
    | .error e => Except.error e
    | .ok r =>
        Except.ok (r,
          if r.isSuccess then
            snowflakeQueryMemUpdate st.mem (argGet c.arguments "query" "")
          else st.mem)
  else if c.name = "search_snowflake_docs" then
    match env.dispatch c.name [("query", argGet c.arguments "query" "")] with
    | .error e => Except.error e
    | .ok r => Except.ok (r, st.mem)
  else if c.name ∈ externalToolNames then
    match env.dispatch c.name (effArgs c) with
    | .error e => Except.error e
    | .ok r => Except.ok (r, st.mem)
  else if c.name = "request_user_input" then
    let question := argGet c.arguments "question" ""
    let context := argGet c.arguments "context" ""
    match env.userInputCb with
    | some cb =>
        let prompt := if context ≠ "" then context ++ "\n\n" ++ question else question
        Except.ok
          ({ tool_name := c.name, status := .success,
             data := .pdict [("user_response", cb prompt)] }, st.mem)
    | none =>
        Except.ok
          ({ tool_name := c.name, status := .pending_approval,
             data := .pdict [("question", question), ("context", context)] }, st.mem)
  else if c.name = "update_progress" then
    let phase := argGet c.arguments "phase" ""
    let step := argGet c.arguments "step" ""
    let statusStr := argGet c.arguments "status" "in_progress"
    let statusEnum :=
      if statusStr = "in_progress" then PhaseStatus.in_progress
      else if statusStr = "completed" then PhaseStatus.completed
      else if statusStr = "failed" then PhaseStatus.failed
      else PhaseStatus.in_progress
    let mem1 := st.mem.updatePhase (env.time st.tick) phase (some statusEnum)
      none (some step) none
    Except.ok
      ({ tool_name := c.name, status := .success,
         data := .pdict [("phase", phase), ("step", step), ("status", statusStr)] },
       mem1)
  else
    Except.ok
      ({ tool_name := c.name, status := .error,
         error := some ("Unknown tool: " ++ c.name) }, st.mem)

/-- `DACLI._execute_tool`: run the dispatch chain, convert any exception
into an ERROR result carrying the exception text and elapsed time, then
log a `ToolExecution` record regardless of the outcome. Never raises. -/
def execToolStep (env : Env) (st : LoopState) (c : ToolCall) : ToolResult × LoopState :=
  match execAttempt env st c with
  | .ok (r, mem1) =>
      let mem2 := mem1.logToolExecution (env.time (st.tick + 1)) c.name (effArgs c)
        (if r.isSuccess then some r.data else none) r.error r.execution_time_ms
      (r, { st with mem := mem2, tick := st.tick + 2 })
  | .error e =>
      let r : ToolResult :=
        { tool_name := c.name, status := .error, error := some e,
          execution_time_ms := env.elapsedMs st.tick }
      let mem2 := st.mem.logToolExecution (env.time (st.tick + 1)) c.name (effArgs c)
        none r.error r.execution_time_ms
      (r, { st with mem := mem2, tick := st.tick + 2 })

/-- How one iteration's batch of tool calls ends: all executed, halted by
a PENDING_APPROVAL result, or aborted by an exception that escapes to the
invocation-level handler. -/
inductive BatchOut where
  | done : BatchOut
  | pending : BatchOut
  | raised (e : String) : BatchOut
deriving Repr, DecidableEq

/-- The sequential tool-call loop inside `process_message`: execute each
call in emission order, collect `tool_results`, break on the first
PENDING_APPROVAL before appending its tool message, and otherwise append
a tool-role message with the rendered result keyed to the call id (the
rendering itself can raise). -/
def execBatch (env : Env) : List ToolCall → LoopState →
    BatchOut × List ToolResult × LoopState
  | [], st => (.done, [], st)
  | c :: rest, st =>
      let step := execToolStep env st c
      let r := step.1
      let st1 := step.2
      if r.status = ToolStatus.pending_approval then (.pending, [r], st1)
      else
        match r.toMessage with
        | .error e => (.raised e, [r], st1)
        | .ok txt =>
            let st2 := { st1 with messages := st1.messages ++ [.toolMsg c.id txt] }
            let tail := execBatch env rest st2
            (tail.1, r :: tail.2.1, tail.2.2)

/-- The error response `process_message` builds when an exception reaches
the invocation-level handler. -/
def errResponse (e : String) (iter : Nat) : AgentResponse :=
  { content := "", tool_calls := [], error := some e, iteration := iter }

/-- The soft-stop response returned when the iteration bound is reached. -/
def maxIterResponse (iter : Nat) : AgentResponse :=
  { content := "Maximum iterations reached. Please provide more guidance.",
    tool_calls := [], needs_user_input := true, iteration := iter }

/-- Append the synthetic assistant turn echoing the batch's tool calls to
the working context (with `content or None`), counting the adapter call
that produced it. -/
def stAfterAssist (st : LoopState) (content : String) (calls : List ToolCall) : LoopState :=
  { st with
      gens := st.gens + 1,
      messages := st.messages ++
        [CtxMsg.assistantCalls (if content = "" then none else some content)
          (calls.map (fun c => ⟨c.id, c.name, jsonDumpArgs c.arguments⟩))] }

/-- The `while self._current_iteration < self._max_iterations` loop of
`process_message`, with the remaining budget as fuel: call the adapter;
zero tool calls is a terminal answer (persisted to history); otherwise
echo the calls, run the batch, return early on PENDING_APPROVAL, convert
an escaped exception into an error response, and iterate. -/
def loopAux (env : Env) : Nat → Nat → LoopState → AgentResponse × LoopState
  | 0, iter, st => (maxIterResponse iter, st)
  | fuel + 1, iter, st =>
      match env.generate (iter + 1) st.messages with
      | .error e => (errResponse e (iter + 1), { st with gens := st.gens + 1 })
      | .ok (content, toolCalls) =>
          match toolCalls with
          | [] =>
              let mem1 := st.mem.addAssistantMessage (env.time st.tick) content
              ({ content := content, tool_calls := [], iteration := iter + 1 },
               { st with mem := mem1, tick := st.tick + 1, gens := st.gens + 1 })
          | c :: cs =>
              let st1 := stAfterAssist st content (c :: cs)
              match execBatch env (c :: cs) st1 with
              | (.pending, _, st2) =>
                  ({ content := content, tool_calls := c :: cs,
                     needs_user_input := true, iteration := iter + 1 }, st2)
              | (.raised e, _, st2) => (errResponse e (iter + 1), st2)
              | (.done, _, st2) => loopAux env fuel (iter + 1) st2

/-- `DACLI.process_message`: persist the user message, build the working
context from the windowed history, and run the bounded loop with the
configured `max_iterations` (validated ≥ 1 by the settings) as budget. -/
def processMessage (env : Env) (maxIter : Nat) (mem : AgentMemory) (tick : Nat)
    (userMessage : String) : AgentResponse × LoopState :=
  let mem1 := mem.addUserMessage (env.time tick) userMessage
  let msgs := mem1.getContextMessages.map (fun p => CtxMsg.plain p.1 p.2)
  loopAux env maxIter 0 ⟨mem1, msgs, tick + 1, 0⟩

/-- All tool names `_execute_tool` has a handler for; any other name falls
through to the synthesized "Unknown tool" ERROR result. -/
def handledToolNames : List String :=
  externalToolNames ++ ["request_user_input", "update_progress"]

/-- The value of an `Except`, or a default on error. -/
def exceptGetD {ε α : Type} (x : Except ε α) (d : α) : α :=
  match x with
  | .ok a => a
  | .error _ => d

/-- The tool-role working-context message the loop appends for one
executed call: the result's rendered text keyed to the call's id. -/
def toolMsgOf (c : ToolCall) (r : ToolResult) : CtxMsg :=
  .toolMsg c.id (exceptGetD r.toMessage "")

/-! ## Concrete fixtures used by witnesses and counterexamples -/

/-- A minimal agent state for a session named `s1`. -/
def stateEx : AgentState :=
  { session_id := "s1", created_at := "t0", updated_at := "t0" }

/-- A minimal agent state for a session named `s2`. -/
def stateEx2 : AgentState :=
  { session_id := "s2", created_at := "t0", updated_at := "t0" }

/-- A store holding three persisted messages under a window of 2. -/
def memEx : AgentMemory :=
  { memory_window := 2, session_id := "s1", state := stateEx,
    messages := [⟨"user", "u1", "t1", []⟩, ⟨"assistant", "a1", "t2", []⟩,
                 ⟨"user", "u2", "t3", []⟩] }

/-- A store whose in-memory history is non-empty and whose files hold a
state file for session `s2` but no history file for it. -/
def memLoadEx : AgentMemory :=
  { memory_window := 25, session_id := "s1", state := stateEx,
    messages := [⟨"user", "old message", "t1", []⟩],
    stateFiles := [(stateFileName "s2", ⟨stateEx2, []⟩)],
    historyFiles := [] }

/-- An empty working-context state over the concrete store. -/
def st0 : LoopState := { mem := memEx, messages := [] }

/-- A user-input request, which turns PENDING_APPROVAL when no callback
is registered. -/
def pendingCall : ToolCall := ⟨"id1", "request_user_input", [("question", "Q")]⟩

/-- A second queued call that must not run once the batch halts. -/
def secondCall : ToolCall := ⟨"id2", "execute_snowflake_query", []⟩

/-- A two-call batch whose first call requires approval. -/
def calls2 : List ToolCall := [pendingCall, secondCall]

/-- An environment with no user-input callback whose adapter always emits
the two-call batch. -/
def env2 : Env :=
  { generate := fun _ _ => Except.ok ("need input", calls2),
    dispatch := fun _ _ => Except.ok { tool_name := "t", status := .success } }

/-- A tool call whose name has no dispatch handler. -/
def unknownCall : ToolCall := ⟨"1", "mystery_tool", []⟩

/-- An environment whose adapter always requests the unknown tool and
whose collaborators and user-input callback always answer. -/
def env3 : Env :=
  { generate := fun _ _ => Except.ok ("", [unknownCall]),
    dispatch := fun _ _ => Except.ok { tool_name := "ext", status := .success },
    userInputCb := some (fun _ => "yes") }

/-! ## Helper lemmas -/

theorem phaseApplyCurrentStep_started_at (p : PhaseProgress) (cs : Option Int) :
    (phaseApplyCurrentStep p cs).started_at = p.started_at := by
  cases cs <;> rfl

theorem phaseApplyCurrentStep_completed_at (p : PhaseProgress) (cs : Option Int) :
    (phaseApplyCurrentStep p cs).completed_at = p.completed_at := by
  cases cs <;> rfl

theorem phaseApplyStepCompleted_started_at (p : PhaseProgress) (sc : Option String) :
    (phaseApplyStepCompleted p sc).started_at = p.started_at := by
  cases sc with
  | none => rfl
  | some s => simp only [phaseApplyStepCompleted]; split_ifs <;> rfl

theorem phaseApplyStepCompleted_completed_at (p : PhaseProgress) (sc : Option String) :
    (phaseApplyStepCompleted p sc).completed_at = p.completed_at := by
  cases sc with
  | none => rfl
  | some s => simp only [phaseApplyStepCompleted]; split_ifs <;> rfl

theorem phaseApplyError_started_at (p : PhaseProgress) (er : Option String) :
    (phaseApplyError p er).started_at = p.started_at := by
  cases er with
  | none => rfl
  | some e => simp only [phaseApplyError]; split_ifs <;> rfl

theorem phaseApplyError_completed_at (p : PhaseProgress) (er : Option String) :
    (phaseApplyError p er).completed_at = p.completed_at := by
  cases er with
  | none => rfl
  | some e => simp only [phaseApplyError]; split_ifs <;> rfl

theorem saveState_state (m : AgentMemory) : m.saveState.state = m.state := rfl

/-- The phase entry `update_phase` starts from is the current one, or the
freshly created default when the key is new. -/
theorem updatePhase_base (m : AgentMemory) (key : String) :
    ((alistGet (match alistGet m.state.phases key with
                | some _ => m.state.phases
                | none => alistSet m.state.phases key (defaultPhase key)) key).getD
      (defaultPhase key))
    = (alistGet m.state.phases key).getD (defaultPhase key) := by
  cases h : alistGet m.state.phases key with
  | none => simp [h, alistGet_alistSet_self]
  | some p => simp [h]

/-- What `update_phase` leaves under the phase key: the ensured entry run
through the four update blocks in order. -/
theorem updatePhase_lookup (m : AgentMemory) (now key : String)
    (status : Option PhaseStatus) (cs : Option Int) (sc er : Option String) :
    alistGet (m.updatePhase now key status cs sc er).state.phases key
      = some (phaseApplyError (phaseApplyStepCompleted (phaseApplyCurrentStep
          (phaseApplyStatus now ((alistGet m.state.phases key).getD (defaultPhase key)) status)
          cs) sc) er) := by
  simp only [AgentMemory.updatePhase, saveState_state]
  rw [alistGet_alistSet_self, updatePhase_base]

theorem logToolExecution_tool_history (m : AgentMemory) (now n : String)
    (a : List (String × String)) (r : Option PyData) (e : Option String) (d : Int) :
    (m.logToolExecution now n a r e d).tool_history
      = m.tool_history ++
        [{ tool_name := n, timestamp := now,
           status := match e with | none => "success" | some _ => "error",
           input_params := a, result := r, error := e, execution_time_ms := d }] := rfl

theorem logToolExecution_messages (m : AgentMemory) (now n : String)
    (a : List (String × String)) (r : Option PyData) (e : Option String) (d : Int) :
    (m.logToolExecution now n a r e d).messages = m.messages := rfl

theorem updatePhase_tool_history (m : AgentMemory) (now key : String)
    (status : Option PhaseStatus) (cs : Option Int) (sc er : Option String) :
    (m.updatePhase now key status cs sc er).tool_history = m.tool_history := rfl

theorem snowflakeQueryMemUpdate_tool_history (m : AgentMemory) (q : String) :
    (snowflakeQueryMemUpdate m q).tool_history = m.tool_history := by
  simp only [snowflakeQueryMemUpdate, AgentMemory.addCreatedSchema,
    AgentMemory.addCreatedFileFormat, AgentMemory.addCreatedTable, AgentMemory.saveState]
  split_ifs <;> rfl

/-- Whatever branch of the dispatch chain returns normally, the memory it
hands back carries the same tool-execution log as before (the branches
mutate only state entities and files). -/
theorem execAttempt_ok_tool_history (env : Env) (st : LoopState) (c : ToolCall)
    (r : ToolResult) (mem1 : AgentMemory)
    (h : execAttempt env st c = Except.ok (r, mem1)) :
    mem1.tool_history = st.mem.tool_history := by
  unfold execAttempt at h
  split_ifs at h
  · revert h
    cases hd : env.dispatch c.name [("query", argGet c.arguments "query" "")] with
    | error e => intro h; cases h
    | ok r2 =>
        intro h
        simp only [Except.ok.injEq, Prod.mk.injEq] at h
        obtain ⟨hr, hm⟩ := h
        rw [← hm]
        split_ifs with hs
        · exact snowflakeQueryMemUpdate_tool_history st.mem _
        · rfl
  · revert h
    cases hd : env.dispatch c.name [("query", argGet c.arguments "query" "")] with
    | error e => intro h; cases h
    | ok r2 =>
        intro h
        simp only [Except.ok.injEq, Prod.mk.injEq] at h
        obtain ⟨hr, hm⟩ := h
        rw [← hm]
  · revert h
    cases hd : env.dispatch c.name (effArgs c) with
    | error e => intro h; cases h
    | ok r2 =>
        intro h
        simp only [Except.ok.injEq, Prod.mk.injEq] at h
        obtain ⟨hr, hm⟩ := h
        rw [← hm]
  · revert h
    cases hcb : env.userInputCb with
    | none =>
        intro h
        simp only [Except.ok.injEq, Prod.mk.injEq] at h
        obtain ⟨hr, hm⟩ := h
        rw [← hm]
    | some cb =>
        intro h
        simp only [Except.ok.injEq, Prod.mk.injEq] at h
        obtain ⟨hr, hm⟩ := h
        rw [← hm]
  · simp only [Except.ok.injEq, Prod.mk.injEq] at h
    obtain ⟨hr, hm⟩ := h
    rw [← hm]
    exact updatePhase_tool_history st.mem _ _ _ _ _ _
  · simp only [Except.ok.injEq, Prod.mk.injEq] at h
    obtain ⟨hr, hm⟩ := h
    rw [← hm]

/-- The state after one `_execute_tool`: the same loop state with exactly
one `ToolExecution` record appended (and the time cursor advanced). -/
theorem execToolStep_snd (env : Env) (st : LoopState) (c : ToolCall) :
    ∃ mem2, (execToolStep env st c).2 = { st with mem := mem2, tick := st.tick + 2 } ∧
      mem2.tool_history.length = st.mem.tool_history.length + 1 := by
  unfold execToolStep
  cases ha : execAttempt env st c with
  | ok pr =>
      obtain ⟨r, mem1⟩ := pr
      refine ⟨_, rfl, ?_⟩
      rw [logToolExecution_tool_history]
      simp [execAttempt_ok_tool_history env st c r mem1 ha]
  | error e =>
      refine ⟨_, rfl, ?_⟩
      rw [logToolExecution_tool_history]
      simp

theorem execToolStep_gens (env : Env) (st : LoopState) (c : ToolCall) :
    (execToolStep env st c).2.gens = st.gens := by
  obtain ⟨mem2, he, _⟩ := execToolStep_snd env st c
  rw [he]

theorem execToolStep_messages (env : Env) (st : LoopState) (c : ToolCall) :
    (execToolStep env st c).2.messages = st.messages := by
  obtain ⟨mem2, he, _⟩ := execToolStep_snd env st c
  rw [he]

theorem execToolStep_history_len (env : Env) (st : LoopState) (c : ToolCall) :
    (execToolStep env st c).2.mem.tool_history.length
      = st.mem.tool_history.length + 1 := by
  obtain ⟨mem2, he, hl⟩ := execToolStep_snd env st c
  rw [he]
  exact hl

/-- Every `_execute_tool` call, whatever its outcome, appends exactly one
`ToolExecution` record carrying the call's input parameters, the result
payload (or null on non-success), the error text and the duration. -/
theorem execToolStep_log_record (env : Env) (st : LoopState) (c : ToolCall) :
    ∃ rec, (execToolStep env st c).2.mem.tool_history = st.mem.tool_history ++ [rec] ∧
      rec.tool_name = c.name ∧
      rec.input_params = effArgs c ∧
      rec.result = (if (execToolStep env st c).1.isSuccess
                    then some (execToolStep env st c).1.data else none) ∧
      rec.error = (execToolStep env st c).1.error ∧
      rec.execution_time_ms = (execToolStep env st c).1.execution_time_ms := by
  unfold execToolStep
  cases ha : execAttempt env st c with
  | ok pr =>
      obtain ⟨r, mem1⟩ := pr
      dsimp only
      refine ⟨{ tool_name := c.name, timestamp := env.time (st.tick + 1),
                status := match r.error with | none => "success" | some _ => "error",
                input_params := effArgs c,
                result := if r.isSuccess then some r.data else none,
                error := r.error, execution_time_ms := r.execution_time_ms },
              ?_, rfl, rfl, rfl, rfl, rfl⟩
      rw [logToolExecution_tool_history, execAttempt_ok_tool_history env st c r mem1 ha]
  | error e =>
      dsimp only
      refine ⟨{ tool_name := c.name, timestamp := env.time (st.tick + 1),
                status := "error",
                input_params := effArgs c, result := none,
                error := some e, execution_time_ms := env.elapsedMs st.tick },
              ?_, rfl, rfl, rfl, rfl, rfl⟩
      rw [logToolExecution_tool_history]

theorem execBatch_gens (env : Env) :
    ∀ (calls : List ToolCall) (st : LoopState),
      (execBatch env calls st).2.2.gens = st.gens := by
  intro calls
  induction calls with
  | nil => intro st; rfl
  | cons c rest ih =>
      intro st
      simp only [execBatch]
      split_ifs with hp
      · exact execToolStep_gens env st c
      · cases hm : (execToolStep env st c).1.toMessage with
        | error e => exact execToolStep_gens env st c
        | ok txt =>
            rw [ih]
            exact execToolStep_gens env st c

theorem execBatch_history (env : Env) :
    ∀ (calls : List ToolCall) (st : LoopState),
      (execBatch env calls st).2.2.mem.tool_history.length
        = st.mem.tool_history.length + (execBatch env calls st).2.1.length := by
  intro calls
  induction calls with
  | nil => intro st; rfl
  | cons c rest ih =>
      intro st
      simp only [execBatch]
      split_ifs with hp
      · simp [execToolStep_history_len env st c]
      · cases hm : (execToolStep env st c).1.toMessage with
        | error e => simp [execToolStep_history_len env st c]
        | ok txt =>
            rw [ih]
            simp only [List.length_cons]
            have h1 := execToolStep_history_len env st c
            omega

theorem execBatch_len_le (env : Env) :
    ∀ (calls : List ToolCall) (st : LoopState),
      (execBatch env calls st).2.1.length ≤ calls.length := by
  intro calls
  induction calls with
  | nil => intro st; exact Nat.le_refl _
  | cons c rest ih =>
      intro st
      simp only [execBatch]
      split_ifs with hp
      · simp
      · cases hm : (execToolStep env st c).1.toMessage with
        | error e => simp
        | ok txt =>
            simp only [List.length_cons]
            exact Nat.succ_le_succ (ih _)

/-- A batch that runs to completion executed every call and appended one
tool-role message per call, in order, each keyed to its call's id. -/
theorem execBatch_done_spec (env : Env) :
    ∀ (calls : List ToolCall) (st : LoopState) results st2,
      execBatch env calls st = (.done, results, st2) →
      results.length = calls.length ∧
      st2.messages = st.messages ++ List.zipWith toolMsgOf calls results := by
  intro calls
  induction calls with
  | nil =>
      intro st results st2 h
      simp only [execBatch, Prod.mk.injEq] at h
      obtain ⟨-, h2, h3⟩ := h
      subst h2; subst h3
      simp
  | cons c rest ih =>
      intro st results st2 h
      simp only [execBatch] at h
      split_ifs at h with hp
      · simp only [Prod.mk.injEq] at h
        exact absurd h.1 (by simp)
      · cases hm : (execToolStep env st c).1.toMessage with
        | error e => rw [hm] at h; simp only [Prod.mk.injEq] at h; exact absurd h.1 (by simp)
        | ok txt =>
            rw [hm] at h
            simp only [Prod.mk.injEq] at h
            obtain ⟨h1, h2, h3⟩ := h
            have htail : execBatch env rest
                { (execToolStep env st c).2 with
                  messages := (execToolStep env st c).2.messages ++ [.toolMsg c.id txt] }
                = (.done,
                   (execBatch env rest
                     { (execToolStep env st c).2 with
                       messages := (execToolStep env st c).2.messages ++ [.toolMsg c.id txt] }).2.1,
                   (execBatch env rest
                     { (execToolStep env st c).2 with
                       messages := (execToolStep env st c).2.messages ++ [.toolMsg c.id txt] }).2.2) := by
              rw [← h1]
            obtain ⟨hl, hmsg⟩ := ih _ _ _ htail
            subst h2; subst h3
            constructor
            · simp [hl]
            · rw [hmsg]
              simp only [execToolStep_messages env st c]
              rw [List.zipWith_cons_cons]
              have htxt : toolMsgOf c (execToolStep env st c).1 = .toolMsg c.id txt := by
                simp [toolMsgOf, hm, exceptGetD]
              rw [htxt]
              simp

/-- A batch halted by PENDING_APPROVAL executed a non-empty prefix whose
last result (and only it) is PENDING_APPROVAL; a tool-role message was
appended for every executed call except that last one. -/
theorem execBatch_pending_spec (env : Env) :
    ∀ (calls : List ToolCall) (st : LoopState) results st2,
      execBatch env calls st = (.pending, results, st2) →
      results ≠ [] ∧
      (∃ r, results.getLast? = some r ∧ r.status = ToolStatus.pending_approval) ∧
      (∀ x ∈ results.dropLast, x.status ≠ ToolStatus.pending_approval) ∧
      st2.messages = st.messages ++ List.zipWith toolMsgOf calls results.dropLast := by
  intro calls
  induction calls with
  | nil =>
      intro st results st2 h
      simp only [execBatch, Prod.mk.injEq] at h
      exact absurd h.1 (by simp)
  | cons c rest ih =>
      intro st results st2 h
      simp only [execBatch] at h
      split_ifs at h with hp
      · simp only [Prod.mk.injEq] at h
        obtain ⟨-, h2, h3⟩ := h
        subst h2; subst h3
        refine ⟨by simp, ⟨_, by simp, hp⟩, by simp, ?_⟩
        simp [execToolStep_messages env st c]
      · cases hm : (execToolStep env st c).1.toMessage with
        | error e => rw [hm] at h; simp only [Prod.mk.injEq] at h; exact absurd h.1 (by simp)
        | ok txt =>
            rw [hm] at h
            simp only [Prod.mk.injEq] at h
            obtain ⟨h1, h2, h3⟩ := h
            have htail : execBatch env rest
                { (execToolStep env st c).2 with
                  messages := (execToolStep env st c).2.messages ++ [.toolMsg c.id txt] }
                = (.pending,
                   (execBatch env rest
                     { (execToolStep env st c).2 with
                       messages := (execToolStep env st c).2.messages ++ [.toolMsg c.id txt] }).2.1,
                   (execBatch env rest
                     { (execToolStep env st c).2 with
                       messages := (execToolStep env st c).2.messages ++ [.toolMsg c.id txt] }).2.2) := by
              rw [← h1]
            obtain ⟨hne, ⟨r, hlast, hrp⟩, hdrop, hmsg⟩ := ih _ _ _ htail
            subst h2; subst h3
            obtain ⟨y, ys, hys⟩ := List.exists_cons_of_ne_nil hne
            rw [hys] at hlast hdrop hmsg ⊢
            refine ⟨by simp, ⟨r, ?_, hrp⟩, ?_, ?_⟩
            · rw [List.getLast?_cons_cons]
              exact hlast
            · intro x hx
              rw [List.dropLast_cons₂] at hx
              rcases List.mem_cons.mp hx with hxr | hxd
              · subst hxr; exact hp
              · exact hdrop x hxd
            · rw [List.dropLast_cons₂, List.zipWith_cons_cons]
              rw [hmsg]
              simp only [execToolStep_messages env st c]
              have htxt : toolMsgOf c (execToolStep env st c).1 = .toolMsg c.id txt := by
                simp [toolMsgOf, hm, exceptGetD]
              rw [htxt]
              simp

/-- A batch aborted by a rendering exception also logged every executed
call, and appended messages for all of them except the aborting one. -/
theorem execBatch_raised_spec (env : Env) :
    ∀ (calls : List ToolCall) (st : LoopState) e results st2,
      execBatch env calls st = (.raised e, results, st2) →
      results ≠ [] ∧
      st2.messages = st.messages ++ List.zipWith toolMsgOf calls results.dropLast := by
  intro calls
  induction calls with
  | nil =>
      intro st e results st2 h
      simp only [execBatch, Prod.mk.injEq] at h
      exact absurd h.1 (by simp)
  | cons c rest ih =>
      intro st e results st2 h
      simp only [execBatch] at h
      split_ifs at h with hp
      · simp only [Prod.mk.injEq] at h
        exact absurd h.1 (by simp)
      · cases hm : (execToolStep env st c).1.toMessage with
        | error e2 =>
            rw [hm] at h
            simp only [Prod.mk.injEq] at h
            obtain ⟨-, h2, h3⟩ := h
            subst h2; subst h3
            refine ⟨by simp, ?_⟩
            simp [execToolStep_messages env st c]
        | ok txt =>
            rw [hm] at h
            simp only [Prod.mk.injEq] at h
            obtain ⟨h1, h2, h3⟩ := h
            have htail : execBatch env rest
                { (execToolStep env st c).2 with
                  messages := (execToolStep env st c).2.messages ++ [.toolMsg c.id txt] }
                = (.raised e,
                   (execBatch env rest
                     { (execToolStep env st c).2 with
                       messages := (execToolStep env st c).2.messages ++ [.toolMsg c.id txt] }).2.1,
                   (execBatch env rest
                     { (execToolStep env st c).2 with
                       messages := (execToolStep env st c).2.messages ++ [.toolMsg c.id txt] }).2.2) := by
              rw [← h1]
            obtain ⟨hne, hmsg⟩ := ih _ _ _ _ htail
            subst h2; subst h3
            obtain ⟨y, ys, hys⟩ := List.exists_cons_of_ne_nil hne
            rw [hys] at hmsg ⊢
            refine ⟨by simp, ?_⟩
            rw [List.dropLast_cons₂, List.zipWith_cons_cons, hmsg]
            simp only [execToolStep_messages env st c]
            have htxt : toolMsgOf c (execToolStep env st c).1 = .toolMsg c.id txt := by
              simp [toolMsgOf, hm, exceptGetD]
            rw [htxt]
            simp

theorem stAfterAssist_gens (st : LoopState) (content : String) (calls : List ToolCall) :
    (stAfterAssist st content calls).gens = st.gens + 1 := rfl

theorem stAfterAssist_mem (st : LoopState) (content : String) (calls : List ToolCall) :
    (stAfterAssist st content calls).mem = st.mem := rfl

/-- A rendering of a non-success result never raises (the `TypeError`
lives only in the successful list-payload path). -/
theorem toMessage_ok_of_not_success (r : ToolResult) (h : r.isSuccess = false) :
    ∃ t, r.toMessage = Except.ok t := by
  unfold ToolResult.toMessage
  simp only [h]
  exact ⟨_, rfl⟩

/-- Dispatching a name with no handler yields exactly the synthesized
"Unknown tool" ERROR result. -/
theorem execToolStep_unknown (env : Env) (st : LoopState) (idv nm : String)
    (args : List (String × String)) (h : nm ∉ handledToolNames) :
    (execToolStep env st ⟨idv, nm, args⟩).1
      = { tool_name := nm, status := .error,
          error := some ("Unknown tool: " ++ nm) } := by
  have hext : ¬ nm ∈ externalToolNames := fun hm =>
    h (List.mem_append_left _ hm)
  have h1 : ¬ nm = "execute_snowflake_query" := fun he => hext (by rw [he]; decide)
  have h2 : ¬ nm = "search_snowflake_docs" := fun he => hext (by rw [he]; decide)
  have h4 : ¬ nm = "request_user_input" := fun he =>
    h (by rw [he]; simp [handledToolNames])
  have h5 : ¬ nm = "update_progress" := fun he =>
    h (by rw [he]; simp [handledToolNames])
  unfold execToolStep execAttempt
  simp only [h1, h2, hext, h4, h5, if_false, if_neg]

/-- A batch all of whose calls neither return PENDING_APPROVAL nor raise
while rendering runs to completion. -/
theorem execBatch_done_of_calls (env : Env) :
    ∀ (calls : List ToolCall),
      (∀ c ∈ calls, ∀ st, (execToolStep env st c).1.status ≠ ToolStatus.pending_approval ∧
        ∃ t, ((execToolStep env st c).1).toMessage = Except.ok t) →
      ∀ st, (execBatch env calls st).1 = .done := by
  intro calls
  induction calls with
  | nil => intro _ st; rfl
  | cons c rest ih =>
      intro hall st
      obtain ⟨hs, t, ht⟩ := hall c (List.mem_cons_self c rest) st
      simp only [execBatch]
      rw [if_neg hs, ht]
      exact ih (fun c2 hc2 st2 => hall c2 (List.mem_cons_of_mem c hc2) st2) _

/-- Any run of the loop can only increase the adapter-call counter. -/
theorem loopAux_gens_mono (env : Env) :
    ∀ (fuel iter : Nat) (st : LoopState),
      st.gens ≤ (loopAux env fuel iter st).2.gens := by
  intro fuel
  induction fuel with
  | zero => intro iter st; exact Nat.le_refl _
  | succ f ih =>
      intro iter st
      simp only [loopAux]
      cases hg : env.generate (iter + 1) st.messages with
      | error e => simp
      | ok pr =>
          obtain ⟨content, toolCalls⟩ := pr
          cases toolCalls with
          | nil => simp
          | cons c cs =>
              dsimp only
              rcases hb : execBatch env (c :: cs) (stAfterAssist st content (c :: cs))
                with ⟨out, results, st2⟩
              have hg2 : st2.gens = st.gens + 1 := by
                have h2 := execBatch_gens env (c :: cs) (stAfterAssist st content (c :: cs))
                rw [hb] at h2
                simpa [stAfterAssist_gens] using h2
              cases out with
              | pending => simp [hg2]
              | raised e => simp [hg2]
              | done =>
                  have h3 := ih (iter + 1) st2
                  dsimp only
                  omega

/-- A loop run with at least one unit of budget makes at least one
adapter call. -/
theorem loopAux_gens_succ (env : Env) :
    ∀ (fuel iter : Nat) (st : LoopState),
      st.gens + 1 ≤ (loopAux env (fuel + 1) iter st).2.gens := by
  intro fuel iter st
  simp only [loopAux]
  cases hg : env.generate (iter + 1) st.messages with
  | error e => simp
  | ok pr =>
      obtain ⟨content, toolCalls⟩ := pr
      cases toolCalls with
      | nil => simp
      | cons c cs =>
          dsimp only
          rcases hb : execBatch env (c :: cs) (stAfterAssist st content (c :: cs))
            with ⟨out, results, st2⟩
          have hg2 : st2.gens = st.gens + 1 := by
            have h2 := execBatch_gens env (c :: cs) (stAfterAssist st content (c :: cs))
            rw [hb] at h2
            simpa [stAfterAssist_gens] using h2
          cases out with
          | pending => simp [hg2]
          | raised e => simp [hg2]
          | done =>
              have h3 := loopAux_gens_mono env fuel (iter + 1) st2
              dsimp only
              omega

/-- One loop iteration whose batch ran to completion continues at the
next iteration with the post-batch state. -/
theorem loopAux_step_done (env : Env) (fuel iter : Nat) (st : LoopState)
    (content : String) (c : ToolCall) (cs : List ToolCall)
    (results : List ToolResult) (st2 : LoopState)
    (hgen : env.generate (iter + 1) st.messages = Except.ok (content, c :: cs))
    (hb : execBatch env (c :: cs) (stAfterAssist st content (c :: cs))
      = (.done, results, st2)) :
    loopAux env (fuel + 1) iter st = loopAux env fuel (iter + 1) st2 := by
  simp only [loopAux]
  rw [hgen]
  dsimp only
  rw [hb]

/-- Under an adapter that always requests tools and tools that never
request approval nor raise, the loop consumes its whole budget and ends
in the max-iterations response. -/
theorem loopAux_exhausts (env : Env)
    (H1 : ∀ i ms, ∃ content calls,
      env.generate i ms = Except.ok (content, calls) ∧ calls ≠ [])
    (H2 : ∀ i ms content calls, env.generate i ms = Except.ok (content, calls) →
      ∀ c ∈ calls, ∀ st,
        (execToolStep env st c).1.status ≠ ToolStatus.pending_approval ∧
        ∃ t, ((execToolStep env st c).1).toMessage = Except.ok t) :
    ∀ (fuel iter : Nat) (st : LoopState),
      (loopAux env fuel iter st).1 = maxIterResponse (iter + fuel) ∧
      (loopAux env fuel iter st).2.gens = st.gens + fuel := by
  intro fuel
  induction fuel with
  | zero => intro iter st; exact ⟨rfl, rfl⟩
  | succ f ih =>
      intro iter st
      obtain ⟨content, calls, hg, hne⟩ := H1 (iter + 1) st.messages
      obtain ⟨c, cs, rfl⟩ := List.exists_cons_of_ne_nil hne
      simp only [loopAux]
      rw [hg]
      dsimp only
      rcases hb : execBatch env (c :: cs) (stAfterAssist st content (c :: cs))
        with ⟨out, results, st2⟩
      have hout : out = .done := by
        have h1 := execBatch_done_of_calls env (c :: cs)
          (H2 (iter + 1) st.messages content (c :: cs) hg)
          (stAfterAssist st content (c :: cs))
        rw [hb] at h1
        exact h1
      subst hout
      have hg2 : st2.gens = st.gens + 1 := by
        have h2 := execBatch_gens env (c :: cs) (stAfterAssist st content (c :: cs))
        rw [hb] at h2
        simpa [stAfterAssist_gens] using h2
      obtain ⟨ha, hgens⟩ := ih (iter + 1) st2
      dsimp only
      constructor
      · rw [ha]
        have : iter + 1 + f = iter + (f + 1) := by omega
        rw [this]
      · rw [hgens, hg2]
        omega

/-! ## Claim theorems -/

/-- C1: rendering a SUCCESS result with a non-empty list payload. For a
list of 3 dict rows `to_message` produces exactly the claimed header and
` Row <i>: <row>` lines, but for a list of 21 dict rows — where the claim
requires a trailing `"... and 1 more rows"` line — the source evaluates
`len(self.data - 20)` and raises `TypeError`, so the truncation clause of
the claim is unreachable: the code is a slip against the spec's intent. -/
theorem C1_to_message_rows :
    ToolResult.toMessage
      { tool_name := "execute_query", status := .success,
        data := .plist [.pdict [("a", "1")], .pdict [("a", "2")], .pdict [("a", "3")]] }
      = Except.ok "[execute_query] Executed successfully. Returned 3 rows:\n Row 1: \x7b'a': '1'\x7d\n Row 2: \x7b'a': '2'\x7d\n Row 3: \x7b'a': '3'\x7d"
    ∧ ToolResult.toMessage
      { tool_name := "execute_query", status := .success,
        data := .plist (List.replicate 21 (.pdict [("a", "1")])) }
      = Except.error "TypeError: unsupported operand type(s) for -: 'list' and 'int'" :=
  ⟨rfl, rfl⟩

/-- C5: for every store whose configured window is at least 1 (the
settings validate `memory_window ≥ 1`), `get_context_messages` returns at
most `memory_window` entries, and they are a suffix (a `drop`) of the full
persisted history in original order, projected to role and content. -/
theorem C5_context_window (m : AgentMemory) (hw : 1 ≤ m.memory_window) :
    m.getContextMessages.length ≤ m.memory_window ∧
    ∃ k, m.getContextMessages
      = (m.messages.map (fun msg => (msg.role, msg.content))).drop k := by
  have hw0 : m.memory_window ≠ 0 := by omega
  constructor
  · simp only [AgentMemory.getContextMessages, pySliceLast, hw0, if_false,
      List.length_map, List.length_drop]
    omega
  · refine ⟨m.messages.length - m.memory_window, ?_⟩
    simp only [AgentMemory.getContextMessages, pySliceLast, hw0, if_false,
      List.map_drop]

/-- Witness for C5 at a concrete store: 3 messages, window 2. -/
theorem C5_witness :
    1 ≤ memEx.memory_window ∧
    (memEx.getContextMessages.length ≤ memEx.memory_window ∧
     ∃ k, memEx.getContextMessages
       = (memEx.messages.map (fun msg => (msg.role, msg.content))).drop k) :=
  ⟨by decide, C5_context_window memEx (by decide)⟩

/-- C6: saving a session's state and history and then loading that
session's id reproduces the session state (phases, counters, discovered
entities are all fields of `AgentState`), the ordered message list, and
the tool-execution log exactly as they were at save time. -/
theorem C6_save_load_roundtrip (m : AgentMemory) :
    ((m.saveState.saveHistory).loadSession m.session_id).1 = true ∧
    ((m.saveState.saveHistory).loadSession m.session_id).2.state = m.state ∧
    ((m.saveState.saveHistory).loadSession m.session_id).2.messages = m.messages ∧
    ((m.saveState.saveHistory).loadSession m.session_id).2.tool_history = m.tool_history := by
  simp [AgentMemory.saveState, AgentMemory.saveHistory, AgentMemory.loadSession,
    alistGet_alistSet_self]

/-- Counterexample for C7: loading a session whose state file exists but
whose history file is absent does NOT produce an empty history — the
previous in-memory message list survives the load untouched. -/
theorem C7_counterexample :
    (memLoadEx.loadSession "s2").1 = true ∧
    (memLoadEx.loadSession "s2").2.messages = [⟨"user", "old message", "t1", []⟩] ∧
    (memLoadEx.loadSession "s2").2.messages.length = 1 :=
  ⟨rfl, rfl, rfl⟩

/-- C7 as amended: `load_session` returns false and leaves the store
unchanged when the state file is absent; when it is present it replaces
the state, tool history and session id from the file, and replaces the
message history only when the history file exists — a missing history
file leaves the previous in-memory messages in place. -/
theorem C7_load_session (m : AgentMemory) (sid : String) :
    (alistGet m.stateFiles (stateFileName sid) = none → m.loadSession sid = (false, m)) ∧
    (∀ file, alistGet m.stateFiles (stateFileName sid) = some file →
      (m.loadSession sid).1 = true ∧
      (m.loadSession sid).2.state = file.state ∧
      (m.loadSession sid).2.tool_history = file.tool_history ∧
      (m.loadSession sid).2.session_id = sid ∧
      (m.loadSession sid).2.messages
        = (alistGet m.historyFiles (historyFileName sid)).getD m.messages) := by
  constructor
  · intro h
    simp [AgentMemory.loadSession, h]
  · intro file h
    cases hh : alistGet m.historyFiles (historyFileName sid) <;>
      simp [AgentMemory.loadSession, h, hh]

/-- Witness for C7 at the concrete store with a present state file. -/
theorem C7_witness :
    (memLoadEx.loadSession "s2").1 = true ∧
    (memLoadEx.loadSession "s2").2.state = (⟨stateEx2, []⟩ : StateFile).state ∧
    (memLoadEx.loadSession "s2").2.tool_history = (⟨stateEx2, []⟩ : StateFile).tool_history ∧
    (memLoadEx.loadSession "s2").2.session_id = "s2" ∧
    (memLoadEx.loadSession "s2").2.messages
      = (alistGet memLoadEx.historyFiles (historyFileName "s2")).getD memLoadEx.messages :=
  (C7_load_session memLoadEx "s2").2 ⟨stateEx2, []⟩ rfl

/-- C9: for every store, phase key and timestamp, `update_phase` to
IN_PROGRESS stamps `started_at` only when the entry's current
`started_at` is unset (preserving it otherwise), and `update_phase` to
COMPLETED always stamps `completed_at` with the current time. -/
theorem C9_phase_timestamps (m : AgentMemory) (now key : String)
    (cs : Option Int) (sc er : Option String) :
    (∃ p, alistGet (m.updatePhase now key (some PhaseStatus.in_progress) cs sc er).state.phases key
        = some p ∧
      p.started_at
        = (if pyFalsyOptStr ((alistGet m.state.phases key).getD (defaultPhase key)).started_at
           then some now
           else ((alistGet m.state.phases key).getD (defaultPhase key)).started_at)) ∧
    (∃ q, alistGet (m.updatePhase now key (some PhaseStatus.completed) cs sc er).state.phases key
        = some q ∧
      q.completed_at = some now) := by
  constructor
  · refine ⟨_, updatePhase_lookup m now key (some PhaseStatus.in_progress) cs sc er, ?_⟩
    rw [phaseApplyError_started_at, phaseApplyStepCompleted_started_at,
      phaseApplyCurrentStep_started_at]
    by_cases hb : pyFalsyOptStr ((alistGet m.state.phases key).getD (defaultPhase key)).started_at
    · simp [phaseApplyStatus, hb]
    · simp [phaseApplyStatus, hb]
  · refine ⟨_, updatePhase_lookup m now key (some PhaseStatus.completed) cs sc er, ?_⟩
    rw [phaseApplyError_completed_at, phaseApplyStepCompleted_completed_at,
      phaseApplyCurrentStep_completed_at]
    simp [phaseApplyStatus]

/-- C10: `add_loaded_table` performs `self.state.loaded_tables.append(...)`
on a dict-typed field, so it always raises `AttributeError`: it never
returns normally, records no loaded table and writes no state snapshot. -/
theorem C10_add_loaded_table_raises (m : AgentMemory) (t : String) :
    m.addLoadedTable t
      = Except.error "AttributeError: 'dict' object has no attribute 'append'" ∧
    exceptIsOk (m.addLoadedTable t) = false :=
  ⟨rfl, rfl⟩

/-- C2: when a batch emitted by the adapter halts on a PENDING_APPROVAL
result, the loop returns that iteration's response immediately with
`needs_user_input = true` and no error, the adapter is not called again in
the invocation (the ghost counter advanced exactly once), only the prefix
up to and including the pending call was executed and logged, and no
earlier result of the batch was PENDING_APPROVAL. -/
theorem C2_pending_approval_halts (env : Env) (fuel iter : Nat) (st : LoopState)
    (content : String) (calls : List ToolCall) (results : List ToolResult)
    (st2 : LoopState)
    (hgen : env.generate (iter + 1) st.messages = Except.ok (content, calls))
    (hne : calls ≠ [])
    (hbatch : execBatch env calls (stAfterAssist st content calls)
      = (.pending, results, st2)) :
    loopAux env (fuel + 1) iter st
      = ({ content := content, tool_calls := calls, needs_user_input := true,
           error := none, iteration := iter + 1 }, st2) ∧
    st2.gens = st.gens + 1 ∧
    results ≠ [] ∧
    (∃ r, results.getLast? = some r ∧ r.status = ToolStatus.pending_approval) ∧
    (∀ x ∈ results.dropLast, x.status ≠ ToolStatus.pending_approval) ∧
    results.length ≤ calls.length ∧
    st2.mem.tool_history.length = st.mem.tool_history.length + results.length := by
  obtain ⟨c, cs, rfl⟩ := List.exists_cons_of_ne_nil hne
  obtain ⟨hne2, hlast, hdrop, hmsg⟩ :=
    execBatch_pending_spec env (c :: cs) (stAfterAssist st content (c :: cs))
      results st2 hbatch
  refine ⟨?_, ?_, hne2, hlast, hdrop, ?_, ?_⟩
  · simp only [loopAux]
    rw [hgen]
    dsimp only
    rw [hbatch]
  · have h2 := execBatch_gens env (c :: cs) (stAfterAssist st content (c :: cs))
    rw [hbatch] at h2
    simpa [stAfterAssist_gens] using h2
  · have h3 := execBatch_len_le env (c :: cs) (stAfterAssist st content (c :: cs))
    rw [hbatch] at h3
    simpa using h3
  · have h4 := execBatch_history env (c :: cs) (stAfterAssist st content (c :: cs))
    rw [hbatch] at h4
    simpa [stAfterAssist_mem] using h4

/-- Witness for C2: a two-call batch whose first call needs approval. -/
theorem C2_witness :
    loopAux env2 1 0 st0
      = ({ content := "need input", tool_calls := calls2, needs_user_input := true,
           error := none, iteration := 1 },
         (execBatch env2 calls2 (stAfterAssist st0 "need input" calls2)).2.2) ∧
    (execBatch env2 calls2 (stAfterAssist st0 "need input" calls2)).2.2.gens
      = st0.gens + 1 ∧
    (execBatch env2 calls2 (stAfterAssist st0 "need input" calls2)).2.1 ≠ [] ∧
    (∃ r, (execBatch env2 calls2 (stAfterAssist st0 "need input" calls2)).2.1.getLast?
        = some r ∧ r.status = ToolStatus.pending_approval) ∧
    (∀ x ∈ (execBatch env2 calls2 (stAfterAssist st0 "need input" calls2)).2.1.dropLast,
       x.status ≠ ToolStatus.pending_approval) ∧
    (execBatch env2 calls2 (stAfterAssist st0 "need input" calls2)).2.1.length
      ≤ calls2.length ∧
    (execBatch env2 calls2 (stAfterAssist st0 "need input" calls2)).2.2.mem.tool_history.length
      = st0.mem.tool_history.length
        + (execBatch env2 calls2 (stAfterAssist st0 "need input" calls2)).2.1.length :=
  C2_pending_approval_halts env2 0 0 st0 "need input" calls2 _ _ rfl (by decide) rfl

/-- C3: when every adapter turn returns at least one tool call, none of
which yields PENDING_APPROVAL or raises, the invocation consumes exactly
the configured iteration budget, calls the adapter exactly that many
times, and returns the fixed max-iterations response with
`needs_user_input = true` and no error. -/
theorem C3_max_iterations (env : Env) (maxIter : Nat) (mem : AgentMemory)
    (tick : Nat) (msg : String)
    (H1 : ∀ i ms, ∃ content calls,
      env.generate i ms = Except.ok (content, calls) ∧ calls ≠ [])
    (H2 : ∀ i ms content calls, env.generate i ms = Except.ok (content, calls) →
      ∀ c ∈ calls, ∀ st,
        (execToolStep env st c).1.status ≠ ToolStatus.pending_approval ∧
        ∃ t, ((execToolStep env st c).1).toMessage = Except.ok t) :
    (processMessage env maxIter mem tick msg).1.content
        = "Maximum iterations reached. Please provide more guidance." ∧
    (processMessage env maxIter mem tick msg).1.needs_user_input = true ∧
    (processMessage env maxIter mem tick msg).1.error = none ∧
    (processMessage env maxIter mem tick msg).1.tool_calls = [] ∧
    (processMessage env maxIter mem tick msg).1.iteration = maxIter ∧
    (processMessage env maxIter mem tick msg).2.gens = maxIter := by
  obtain ⟨h1, h2⟩ := loopAux_exhausts env H1 H2 maxIter 0
    ⟨mem.addUserMessage (env.time tick) msg,
     ((mem.addUserMessage (env.time tick) msg).getContextMessages).map
       (fun p => CtxMsg.plain p.1 p.2),
     tick + 1, 0⟩
  simp only [processMessage] at *
  rw [h1, h2]
  simp [maxIterResponse]

/-- Witness for C3: an adapter that always requests an unhandled tool,
with iteration bound 3. -/
theorem C3_witness :
    (processMessage env3 3 memEx 0 "run").1.content
        = "Maximum iterations reached. Please provide more guidance." ∧
    (processMessage env3 3 memEx 0 "run").1.needs_user_input = true ∧
    (processMessage env3 3 memEx 0 "run").1.error = none ∧
    (processMessage env3 3 memEx 0 "run").1.tool_calls = [] ∧
    (processMessage env3 3 memEx 0 "run").1.iteration = 3 ∧
    (processMessage env3 3 memEx 0 "run").2.gens = 3 := by
  apply C3_max_iterations env3 3 memEx 0 "run"
  · intro i ms
    exact ⟨"", [unknownCall], rfl, by decide⟩
  · intro i ms content calls hg c hc st
    have hg2 : Except.ok ("", [unknownCall]) = Except.ok (content, calls) := hg
    simp only [Except.ok.injEq, Prod.mk.injEq] at hg2
    obtain ⟨hcon, hcalls⟩ := hg2
    rw [← hcalls] at hc
    have hcu : c = unknownCall := by simpa using hc
    subst hcu
    have hu : (execToolStep env3 st unknownCall).1
        = { tool_name := "mystery_tool", status := .error,
            error := some ("Unknown tool: " ++ "mystery_tool") } := by
      simp only [unknownCall]
      exact execToolStep_unknown env3 st "1" "mystery_tool" [] (by decide)
    constructor
    · rw [hu]
      simp
    · apply toMessage_ok_of_not_success
      rw [hu]
      rfl

/-- C4: a tool call whose name has no dispatch handler yields (without
raising) an ERROR result with text `Unknown tool: <name>`, still logs a
`ToolExecution` record, and — when such a batch is emitted with budget
remaining — the loop continues, so the adapter is called again in the
same invocation (at least two adapter calls happen in the remainder). -/
theorem C4_unknown_tool (env : Env) (st : LoopState) (idv nm : String)
    (args : List (String × String)) (fuel iter : Nat) (content : String)
    (h : nm ∉ handledToolNames) :
    (execToolStep env st ⟨idv, nm, args⟩).1.status = ToolStatus.error ∧
    (execToolStep env st ⟨idv, nm, args⟩).1.error = some ("Unknown tool: " ++ nm) ∧
    (execToolStep env st ⟨idv, nm, args⟩).2.mem.tool_history.length
      = st.mem.tool_history.length + 1 ∧
    (env.generate (iter + 1) st.messages = Except.ok (content, [⟨idv, nm, args⟩]) →
      st.gens + 2 ≤ (loopAux env (fuel + 1 + 1) iter st).2.gens) := by
  refine ⟨?_, ?_, execToolStep_history_len env st _, ?_⟩
  · rw [execToolStep_unknown env st idv nm args h]
  · rw [execToolStep_unknown env st idv nm args h]
  · intro hgen
    have hprop : ∀ c2 ∈ [(⟨idv, nm, args⟩ : ToolCall)], ∀ st2 : LoopState,
        (execToolStep env st2 c2).1.status ≠ ToolStatus.pending_approval ∧
        ∃ t, ((execToolStep env st2 c2).1).toMessage = Except.ok t := by
      intro c2 hc2 st2
      have hc2e : c2 = ⟨idv, nm, args⟩ := by simpa using hc2
      subst hc2e
      constructor
      · rw [execToolStep_unknown env st2 idv nm args h]
        simp
      · apply toMessage_ok_of_not_success
        rw [execToolStep_unknown env st2 idv nm args h]
        rfl
    rcases hb : execBatch env [⟨idv, nm, args⟩]
        (stAfterAssist st content [⟨idv, nm, args⟩]) with ⟨out, results, st2⟩
    have hout : out = .done := by
      have h1 := execBatch_done_of_calls env _ hprop
        (stAfterAssist st content [⟨idv, nm, args⟩])
      rw [hb] at h1
      exact h1
    subst hout
    have hg2 : st2.gens = st.gens + 1 := by
      have h2 := execBatch_gens env [⟨idv, nm, args⟩]
        (stAfterAssist st content [⟨idv, nm, args⟩])
      rw [hb] at h2
      simpa [stAfterAssist_gens] using h2
    have hstep := loopAux_step_done env (fuel + 1) iter st content
      ⟨idv, nm, args⟩ [] results st2 hgen hb
    rw [hstep]
    have h3 := loopAux_gens_succ env fuel (iter + 1) st2
    omega

/-- Witness for C4 at the concrete unknown-name call. -/
theorem C4_witness :
    (execToolStep env3 st0 ⟨"1", "mystery_tool", []⟩).1.status = ToolStatus.error ∧
    (execToolStep env3 st0 ⟨"1", "mystery_tool", []⟩).1.error
      = some ("Unknown tool: " ++ "mystery_tool") ∧
    (execToolStep env3 st0 ⟨"1", "mystery_tool", []⟩).2.mem.tool_history.length
      = st0.mem.tool_history.length + 1 ∧
    st0.gens + 2 ≤ (loopAux env3 (0 + 1 + 1) 0 st0).2.gens := by
  have h := C4_unknown_tool env3 st0 "1" "mystery_tool" [] 0 0 "" (by decide)
  exact ⟨h.1, h.2.1, h.2.2.1, h.2.2.2 rfl⟩

/-- Counterexample for C8: the first call of this batch is executed and
its `ToolExecution` record is logged, but because its status is
PENDING_APPROVAL the batch halts before appending any tool-role message —
the working context is left untouched, so the "appended regardless of
status" half of the claim is false. -/
theorem C8_counterexample :
    (execBatch env2 [pendingCall] st0).1 = .pending ∧
    (execBatch env2 [pendingCall] st0).2.2.mem.tool_history.length
      = st0.mem.tool_history.length + 1 ∧
    (execBatch env2 [pendingCall] st0).2.2.messages = st0.messages ∧
    (execBatch env2 [pendingCall] st0).2.2.messages.length = 0 :=
  ⟨rfl, rfl, rfl, rfl⟩

/-- C8 as amended: every executed call of a batch logs exactly one
`ToolExecution` record (input parameters, result payload or null, error,
duration) regardless of status, and a tool-role message with the result's
rendered text keyed to the call's id is appended to the working context
for every executed call except the final one of a batch halted by
PENDING_APPROVAL (or aborted by a rendering exception), whose message is
never appended. -/
theorem C8_logging_and_messages (env : Env) :
    (∀ (st : LoopState) (c : ToolCall), ∃ rec,
      (execToolStep env st c).2.mem.tool_history = st.mem.tool_history ++ [rec] ∧
      rec.tool_name = c.name ∧
      rec.input_params = effArgs c ∧
      rec.result = (if (execToolStep env st c).1.isSuccess
                    then some (execToolStep env st c).1.data else none) ∧
      rec.error = (execToolStep env st c).1.error ∧
      rec.execution_time_ms = (execToolStep env st c).1.execution_time_ms) ∧
    (∀ (calls : List ToolCall) (st : LoopState) (results : List ToolResult)
       (st2 : LoopState),
      (execBatch env calls st = (.done, results, st2) →
        results.length = calls.length ∧
        st2.mem.tool_history.length = st.mem.tool_history.length + results.length ∧
        st2.messages = st.messages ++ List.zipWith toolMsgOf calls results) ∧
      (execBatch env calls st = (.pending, results, st2) →
        st2.mem.tool_history.length = st.mem.tool_history.length + results.length ∧
        st2.messages = st.messages ++ List.zipWith toolMsgOf calls results.dropLast) ∧
      (∀ e, execBatch env calls st = (.raised e, results, st2) →
        st2.mem.tool_history.length = st.mem.tool_history.length + results.length ∧
        st2.messages = st.messages ++ List.zipWith toolMsgOf calls results.dropLast)) := by
  constructor
  · intro st c
    exact execToolStep_log_record env st c
  · intro calls st results st2
    refine ⟨?_, ?_, ?_⟩
    · intro h
      obtain ⟨hl, hm⟩ := execBatch_done_spec env calls st results st2 h
      refine ⟨hl, ?_, hm⟩
      have h4 := execBatch_history env calls st
      rw [h] at h4
      exact h4
    · intro h
      obtain ⟨-, -, -, hm⟩ := execBatch_pending_spec env calls st results st2 h
      refine ⟨?_, hm⟩
      have h4 := execBatch_history env calls st
      rw [h] at h4
      exact h4
    · intro e h
      obtain ⟨-, hm⟩ := execBatch_raised_spec env calls st e results st2 h
      refine ⟨?_, hm⟩
      have h4 := execBatch_history env calls st
      rw [h] at h4
      exact h4

/-- Witness for C8 on a completed one-call batch. -/
theorem C8_witness :
    (execBatch env3 [unknownCall] st0).2.1.length
      = ([unknownCall] : List ToolCall).length ∧
    (execBatch env3 [unknownCall] st0).2.2.mem.tool_history.length
      = st0.mem.tool_history.length + (execBatch env3 [unknownCall] st0).2.1.length ∧
    (execBatch env3 [unknownCall] st0).2.2.messages
      = st0.messages
        ++ List.zipWith toolMsgOf [unknownCall] (execBatch env3 [unknownCall] st0).2.1 :=
  ((C8_logging_and_messages env3).2 [unknownCall] st0 _ _).1 rfl
